import Mathlib

/-!
Verification of the cashflow ledger core: a shallow embedding of the
storage layer (`db.ts`), the reconciliation engine (`sync.ts`), the
classification engine (`tags.ts`), the budget engine (`budgets.ts`),
the analytics engine (`reports.ts`) and the CSV export (`export.ts`),
together with theorems settling the specified properties.

Modelling conventions: JavaScript numbers are modelled as `Rat`
(all arithmetic in the repository is plain field arithmetic plus
`Math.round`); SQL `NULL`-able columns are `Option` fields; SQL tables
are lists of row structures whose primary-key uniqueness is carried as
a `Nodup` hypothesis where needed; `Math.round` is round-half-up
(toward plus infinity), exactly JavaScript semantics.
-/

namespace Cashflow

/-- JavaScript `Math.round`: round half away from zero toward plus infinity. -/
def jsRound (q : Rat) : Int := Rat.floor (q + 1 / 2)

/-- The repository idiom `Math.round(x * 100) / 100` (round to cents). -/
def roundCents (q : Rat) : Rat := (jsRound (q * 100) : Rat) / 100

/-- The repository idiom `Math.round(x * 1000) / 1000` (three decimals). -/
def roundTo3 (q : Rat) : Rat := (jsRound (q * 1000) : Rat) / 1000

/-- JavaScript string truthiness fallback `m || n` where `m` is a nullable
string: the fallback fires on `null` and on the empty string. -/
def jsStrOr (m : Option String) (n : String) : String :=
  match m with
  | some s => if s = "" then n else s
  | none => n

/-- JavaScript `x || null` applied to an optional string: the empty string
collapses to `null`. -/
def jsStrOrNull (m : Option String) : Option String :=
  match m with
  | some s => if s = "" then none else some s
  | none => none

/-- Model of `s.replace(/"/g, DOUBLED)` at character level: every double
quote is doubled, all other characters are kept. -/
def escQuotes : List Char → List Char
  | [] => []
  | c :: cs => if c = '"' then '"' :: '"' :: escQuotes cs else c :: escQuotes cs

/-- String-level wrapper for `escQuotes`. -/
def jsReplaceQuotes (s : String) : String := String.mk (escQuotes s.data)

/-! ## Data model (`src/types/index.ts`)

`TxnInput` is the shape accepted by `upsertTransactions` (all columns the
sync path supplies); a stored row (`TxnRow`) additionally carries the
locally assigned `tag` column, which the conflict-update clause omits. -/

structure TxnInput where
  transaction_id : String
  account_id : String
  amount : Rat
  iso_currency_code : Option String
  date : String
  name : String
  merchant_name : Option String
  pending : Nat
  category : Option String
  subcategory : Option String
  payment_channel : Option String
  transaction_type : Option String
  authorized_date : Option String
deriving Repr, DecidableEq

structure TxnRow extends TxnInput where
  tag : Option String
deriving Repr, DecidableEq

/-- The derived getter `Transaction.displayName`, source
`return this.merchant_name || this.name` (JavaScript truthiness). -/
def displayName (t : TxnRow) : String := jsStrOr t.merchant_name t.name

/-- The derived getter `Transaction.isIncome`, source `this.amount < 0`. -/
def isIncome (t : TxnRow) : Bool := decide (t.amount < 0)

structure AccountInput where
  account_id : String
  item_id : String
  name : String
  official_name : Option String
  type : String
  subtype : Option String
  mask : Option String
  current_balance : Option Rat
  available_balance : Option Rat
  iso_currency_code : Option String
deriving Repr, DecidableEq

structure AccountRow extends AccountInput where
  updated_at : String
deriving Repr, DecidableEq

/-! ## Ledger store (`src/core/db.ts`)

`sqlUpsertRow` models one `INSERT ... ON CONFLICT(key) DO UPDATE` row
write: if some row matches the key, every matching row is rewritten by the
conflict clause, otherwise the fresh row is appended. -/

def sqlUpsertRow (keyMatches : α → Bool) (onConflict : α → α) (newRow : α)
    (table : List α) : List α :=
  if table.any keyMatches then
    table.map (fun r => if keyMatches r then onConflict r else r)
  else table ++ [newRow]

/-- One row write of `upsertTransactions`: the conflict clause updates all
thirteen supplied columns and omits `tag`. -/
def upsertTxnRow (table : List TxnRow) (t : TxnInput) : List TxnRow :=
  sqlUpsertRow (fun r => r.transaction_id == t.transaction_id)
    (fun r => { toTxnInput := t, tag := r.tag })
    { toTxnInput := t, tag := none } table

/-- `upsertTransactions` (`db.ts`): the batch loop over the prepared
statement, one `upsertTxnRow` per input row. -/
def upsertTransactions (table : List TxnRow) (ts : List TxnInput) : List TxnRow :=
  ts.foldl upsertTxnRow table

/-- The `ON CONFLICT(account_id) DO UPDATE` clause of `upsertAccounts`:
it sets name, official_name, type, subtype, mask, current_balance,
available_balance, iso_currency_code and `updated_at` (bound to
`datetime(now)`, passed here as `now`) — it omits `item_id`, so a
conflicting row keeps its stored `item_id`. -/
def accountOnConflict (now : String) (a : AccountInput) (r : AccountRow) : AccountRow :=
  { toAccountInput := { a with item_id := r.item_id }, updated_at := now }

/-- One row write of `upsertAccounts`: a conflicting row is rewritten by
the conflict clause (which retains its `item_id`); a fresh insert takes
every supplied column. -/
def upsertAccountRow (now : String) (table : List AccountRow) (a : AccountInput) :
    List AccountRow :=
  sqlUpsertRow (fun r => r.account_id == a.account_id)
    (accountOnConflict now a)
    { toAccountInput := a, updated_at := now } table

/-- `upsertAccounts` (`db.ts`). -/
def upsertAccounts (now : String) (table : List AccountRow) (as_ : List AccountInput) :
    List AccountRow :=
  as_.foldl (upsertAccountRow now) table

/-- `removeTransactions` (`db.ts`): one `DELETE ... WHERE transaction_id = ?`
per id; the empty list is a no-op. -/
def removeTransactions (table : List TxnRow) (ids : List String) : List TxnRow :=
  ids.foldl (fun tb id => tb.filter (fun r => r.transaction_id != id)) table

/-! ## Analytics engine: burn trend (`src/core/reports.ts`) -/

structure MonthlyBurn where
  month : String
  total : Rat
deriving Repr, DecidableEq

inductive Trend where
  | increasing
  | decreasing
  | stable
deriving Repr, DecidableEq

/-- `computeTrend` (`reports.ts`): fewer than 3 buckets is stable; otherwise
the average month-over-month delta of the last 3 buckets is compared with
5 percent of the average spend of those buckets. -/
def computeTrend (months : List MonthlyBurn) : Trend :=
  if months.length < 3 then .stable
  else
    let recent := months.drop (months.length - 3)
    let diffs := (recent.zip recent.tail).map (fun p => p.2.total - p.1.total)
    let avgDiff := diffs.sum / (diffs.length : Rat)
    let avgSpend := (recent.map MonthlyBurn.total).sum / (recent.length : Rat)
    let threshold := avgSpend * (5 / 100)
    if avgDiff > threshold then .increasing
    else if avgDiff < -threshold then .decreasing
    else .stable

structure BurnReport where
  months : List MonthlyBurn
  trend : Trend
deriving Repr, DecidableEq

/-- `getBurnReport` (`reports.ts`): monthly spend rows rounded to cents,
then classified by `computeTrend`. -/
def getBurnReport (rows : List (String × Rat)) : BurnReport :=
  let monthlyBurn := rows.map (fun r => MonthlyBurn.mk r.1 (roundCents r.2))
  { months := monthlyBurn, trend := computeTrend monthlyBurn }

/-! ## Reconciliation engine (`src/core/sync.ts`)

The upstream feed is modelled as a function from cursor to response page;
`none` models a failed page request (the `catch` branch raising
`SyncError`). A pagination loop that never terminates is cut off by fuel,
which also counts as a failed pass (no commit happens either way). -/

structure PlaidRemoved where
  transaction_id : Option String
deriving Repr, DecidableEq

structure PlaidTxn where
  transaction_id : String
  account_id : String
  amount : Rat
  iso_currency_code : Option String
  date : String
  name : String
  merchant_name : Option String
  pending : Bool
  pfc_primary : Option String
  pfc_detailed : Option String
  category : List String
  payment_channel : String
  transaction_type : Option String
  authorized_date : Option String
deriving Repr, DecidableEq

structure PlaidAccount where
  account_id : String
  name : String
  official_name : Option String
  type : String
  subtype : Option String
  mask : Option String
  balance_current : Option Rat
  balance_available : Option Rat
  balance_iso_currency_code : Option String
deriving Repr, DecidableEq

structure Page where
  added : List PlaidTxn
  modified : List PlaidTxn
  removed : List PlaidRemoved
  accounts : List PlaidAccount
  has_more : Bool
  next_cursor : String
deriving Repr

structure SyncResponse where
  added : Nat
  modified : Nat
  removed : Nat
  cursor : String
  has_more : Bool
deriving Repr, DecidableEq

/-- The whole database: three tables. `sync_state` is an association list
from item id to cursor (the `last_synced_at` column plays no role in any
claim and is elided). -/
structure Db where
  accounts : List AccountRow
  transactions : List TxnRow
  sync_state : List (String × String)
deriving Repr, DecidableEq

/-- `getSyncState` (`db.ts`), reduced to the cursor column. -/
def getSyncState (db : Db) (itemId : String) : Option String :=
  (db.sync_state.find? (fun p => p.1 == itemId)).map (fun p => p.2)

/-- `setSyncState` (`db.ts`): upsert of the cursor row for one item. -/
def setCursor (st : List (String × String)) (itemId cursor : String) :
    List (String × String) :=
  sqlUpsertRow (fun p => p.1 == itemId) (fun _ => (itemId, cursor))
    (itemId, cursor) st

/-- The starting cursor of a pass: `state?.cursor || ""` (an empty stored
cursor stays empty, so `getD` is exact). -/
def startCursor (db : Db) (itemId : String) : String :=
  (getSyncState db itemId).getD ""

/-- `mapPlaidTransaction` (`sync.ts`): field mapping from the upstream
delta record into the transaction upsert shape. -/
def mapPlaidTransaction (t : PlaidTxn) : TxnInput where
  transaction_id := t.transaction_id
  account_id := t.account_id
  amount := t.amount
  iso_currency_code := t.iso_currency_code
  date := t.date
  name := jsStrOr t.merchant_name t.name
  merchant_name := t.merchant_name
  pending := if t.pending then 1 else 0
  category :=
    match t.pfc_primary with
    | some p => some p
    | none => jsStrOrNull t.category.head?
  subcategory :=
    match t.pfc_detailed with
    | some d => some d
    | none => jsStrOrNull (t.category.drop 1).head?
  payment_channel := some t.payment_channel
  transaction_type := t.transaction_type
  authorized_date := t.authorized_date

/-- The account mapping inlined in `syncItem`'s per-page account upsert. -/
def mapPlaidAccount (itemId : String) (a : PlaidAccount) : AccountInput where
  account_id := a.account_id
  item_id := itemId
  name := a.name
  official_name := a.official_name
  type := a.type
  subtype := a.subtype
  mask := a.mask
  current_balance := a.balance_current
  available_balance := a.balance_available
  iso_currency_code := a.balance_iso_currency_code

/-- The pagination loop of `syncItem`: accumulate added, modified and
removed across pages, upsert accounts of each page eagerly, follow
`next_cursor` while `has_more`. A failed request surfaces as `.error`
carrying the database as mutated so far (account upserts from earlier
pages are already applied; nothing else is). -/
def syncLoop (feed : String → Option Page) (now itemId : String) :
    Nat → String → List PlaidTxn → List PlaidTxn → List String → Db →
    Except Db (Db × String × List PlaidTxn × List PlaidTxn × List String)
  | 0, _, _, _, _, db => .error db
  | fuel + 1, cursor, added, modified, removed, db =>
    match feed cursor with
    | none => .error db
    | some page =>
      let added' := added ++ page.added
      let modified' := modified ++ page.modified
      let removed' := removed ++ page.removed.filterMap PlaidRemoved.transaction_id
      let db' :=
        if page.accounts.length > 0 then
          { db with accounts :=
              upsertAccounts now db.accounts (page.accounts.map (mapPlaidAccount itemId)) }
        else db
      if page.has_more then
        syncLoop feed now itemId fuel page.next_cursor added' modified' removed' db'
      else .ok (db', page.next_cursor, added', modified', removed')

/-- `syncItem` (`sync.ts`): run the pagination loop from the persisted
cursor, then perform the single atomic commit (transaction upserts,
removals, cursor) only on success. -/
def syncItem (feed : String → Option Page) (now : String) (db : Db)
    (itemId : String) (fuel : Nat) : Except Db (Db × SyncResponse) :=
  match syncLoop feed now itemId fuel (startCursor db itemId) [] [] [] db with
  | .error dbE => .error dbE
  | .ok (db', cursor, added, modified, removed) =>
    let txns1 :=
      if added.length > 0 then
        upsertTransactions db'.transactions (added.map mapPlaidTransaction)
      else db'.transactions
    let txns2 :=
      if modified.length > 0 then
        upsertTransactions txns1 (modified.map mapPlaidTransaction)
      else txns1
    let txns3 :=
      if removed.length > 0 then removeTransactions txns2 removed else txns2
    .ok ({ db' with
            transactions := txns3,
            sync_state := setCursor db'.sync_state itemId cursor },
         { added := added.length, modified := modified.length,
           removed := removed.length, cursor := cursor, has_more := false })

/-- Pure description of what a successful pass accumulates: the
concatenation of the added, modified and (non-null) removed sets over all
pages, together with the final cursor. `none` when some page request fails
(or fuel runs out). -/
def collectFeed (feed : String → Option Page) :
    Nat → String → Option (List PlaidTxn × List PlaidTxn × List String × String)
  | 0, _ => none
  | fuel + 1, cursor =>
    match feed cursor with
    | none => none
    | some page =>
      let removedIds := page.removed.filterMap PlaidRemoved.transaction_id
      if page.has_more then
        (collectFeed feed fuel page.next_cursor).map
          (fun r => (page.added ++ r.1, page.modified ++ r.2.1,
                     removedIds ++ r.2.2.1, r.2.2.2))
      else some (page.added, page.modified, removedIds, page.next_cursor)

/-- One configured source item: its id and its upstream feed. -/
structure ItemSpec where
  itemId : String
  feed : String → Option Page

/-- The item loop of `syncAll`, accumulating the response counters. -/
def syncAllGo (now : String) (fuel : Nat) :
    List ItemSpec → Db → Nat → Nat → Nat → String → Except Db (Db × SyncResponse)
  | [], db, ta, tm, tr, lastCursor =>
    .ok (db, { added := ta, modified := tm, removed := tr,
               cursor := lastCursor, has_more := false })
  | it :: rest, db, ta, tm, tr, _ =>
    match syncItem it.feed now db it.itemId fuel with
    | .error dbE => .error dbE
    | .ok (db', r) =>
      syncAllGo now fuel rest db' (ta + r.added) (tm + r.modified)
        (tr + r.removed) r.cursor

/-- `syncAll` (`sync.ts`): reject an empty item list, then run every item
sequentially; an item failure propagates out of the loop. -/
def syncAll (now : String) (db : Db) (items : List ItemSpec) (fuel : Nat) :
    Except Db (Db × SyncResponse) :=
  if items.isEmpty then .error db
  else syncAllGo now fuel items db 0 0 0 ""

/-- Sequential database evolution of a list of item passes, ignoring the
counters (used to state which prefix of `syncAll` committed). -/
def runItems (now : String) (fuel : Nat) : List ItemSpec → Db → Except Db Db
  | [], db => .ok db
  | it :: rest, db =>
    match syncItem it.feed now db it.itemId fuel with
    | .error dbE => .error dbE
    | .ok (db', _) => runItems now fuel rest db'

/-! ## Classification engine (`src/core/tags.ts`)

The regular-expression engine lives outside the repository, so rule
matching is a parameter `matcher pattern haystack`; every theorem below
holds for an arbitrary matcher. `litMatch` instantiates it with the
semantics of a case-insensitive regex whose pattern is a plain literal
word, which is enough for concrete witnesses and counterexamples. -/

structure TagRule where
  id : Nat
  pattern : String
  tag : String
  priority : Int
deriving Repr, DecidableEq

/-- The ordering of `getTagRules` (`db.ts`): `ORDER BY priority DESC, id ASC`. -/
def ruleLe (r s : TagRule) : Bool :=
  decide (s.priority < r.priority) ||
    (decide (r.priority = s.priority) && decide (r.id ≤ s.id))

/-- Ordered insertion behind `getTagRulesSorted`. -/
def insertSorted (r : TagRule) : List TagRule → List TagRule
  | [] => [r]
  | s :: rest => if ruleLe r s then r :: s :: rest else s :: insertSorted r rest

/-- `getTagRules` (`db.ts`): all rules sorted by descending priority, ties
broken by ascending id (an insertion sort realises the `ORDER BY`; with
distinct ids `ruleLe` is a total order, so the sorted list is the unique
`ORDER BY priority DESC, id ASC` output). -/
def getTagRulesSorted : List TagRule → List TagRule
  | [] => []
  | r :: rest => insertSorted r (getTagRulesSorted rest)

/-- The haystack `[txn.merchant_name, txn.name].filter(Boolean).join(" ")`:
null and empty-string components are dropped before joining. -/
def haystack (t : TxnRow) : String :=
  String.intercalate " " (([t.merchant_name.getD "", t.name]).filter (fun s => s != ""))

/-- The inner rule loop of `applyTagRules`: the first rule whose pattern
matches the haystack wins. -/
def firstMatchTag (matcher : String → String → Bool) (rules : List TagRule)
    (hay : String) : Option String :=
  match rules with
  | [] => none
  | r :: rest =>
    if matcher r.pattern hay then some r.tag else firstMatchTag matcher rest hay

/-- `updateTransactionTag` (`db.ts`): `UPDATE transactions SET tag = ?
WHERE transaction_id = ?`. -/
def updateTransactionTag (txns : List TxnRow) (id : String) (tag : Option String) :
    List TxnRow :=
  txns.map (fun t => if t.transaction_id == id then { t with tag := tag } else t)

/-- `applyTagRules` (`tags.ts`): fetch sorted rules (early out when empty),
fetch untagged rows (early out when empty), then tag each untagged row
with its first matching rule, counting the rows newly tagged. -/
def applyTagRules (matcher : String → String → Bool) (rules : List TagRule)
    (txns : List TxnRow) : Nat × List TxnRow :=
  let sorted := getTagRulesSorted rules
  if sorted.isEmpty then (0, txns)
  else
    let untagged := txns.filter (fun t => t.tag.isNone)
    if untagged.isEmpty then (0, txns)
    else
      untagged.foldl
        (fun acc t =>
          match firstMatchTag matcher sorted (haystack t) with
          | some tg => (acc.1 + 1, updateTransactionTag acc.2 t.transaction_id (some tg))
          | none => acc)
        (0, txns)

/-- What the tagging pass does to one untagged row, relative to an already
sorted rule list: tagged with its first matching rule, or untouched. -/
def tagStepSorted (matcher : String → String → Bool) (sorted : List TagRule)
    (t : TxnRow) : TxnRow :=
  match firstMatchTag matcher sorted (haystack t) with
  | some tg => { t with tag := some tg }
  | none => t

/-- What `applyTagRules` does to one untagged row. -/
def tagStep (matcher : String → String → Bool) (rules : List TagRule)
    (t : TxnRow) : TxnRow :=
  tagStepSorted matcher (getTagRulesSorted rules) t

/-- Sequence containment scan used by `litMatch`. -/
def seqStartsWith : List Char → List Char → Bool
  | [], _ => true
  | _ :: _, [] => false
  | a :: as_, b :: bs => a == b && seqStartsWith as_ bs

/-- Sequence containment used by `litMatch`. -/
def seqContains (needle : List Char) : List Char → Bool
  | [] => seqStartsWith needle []
  | c :: rest => seqStartsWith needle (c :: rest) || seqContains needle rest

/-- ASCII lower-casing of one character. -/
def charLower (c : Char) : Char :=
  if 65 ≤ c.toNat && c.toNat ≤ 90 then Char.ofNat (c.toNat + 32) else c

/-- Semantics of `new RegExp(pattern, i).test(hay)` for patterns that are
plain literal words (no metacharacters): case-insensitive containment. -/
def litMatch (pat hay : String) : Bool :=
  seqContains (pat.data.map charLower) (hay.data.map charLower)

/-! ## Budget engine (`src/core/budgets.ts`, aggregation in `db.ts`) -/

structure Budget where
  id : Nat
  tag : String
  monthly_limit : Rat
  alert_threshold : Rat
deriving Repr, DecidableEq

structure BudgetStatus where
  tag : String
  monthly_limit : Rat
  alert_threshold : Rat
  spent : Rat
  remaining : Rat
  percent_used : Rat
  over_budget : Bool
deriving Repr, DecidableEq

/-- Model of `strftime(percent-Y-percent-m, date)` on an ISO `YYYY-MM-DD`
date string: its first seven characters. -/
def monthOf (date : String) : String := date.take 7

/-- The resolved tag `COALESCE(tag, category, uncategorized)`. -/
def resolvedTag (t : TxnRow) : String :=
  match t.tag with
  | some x => x
  | none =>
    match t.category with
    | some c => c
    | none => "uncategorized"

/-- `getSpendingByTagForMonth` (`db.ts`): spend-only rows of the month
grouped by resolved tag, summing amounts. -/
def getSpendingByTagForMonth (txns : List TxnRow) (month : String) :
    List (String × Rat) :=
  let rows := txns.filter (fun t => decide (0 < t.amount) && (monthOf t.date == month))
  let keys := (rows.map resolvedTag).dedup
  keys.map (fun k => (k, ((rows.filter (fun t => resolvedTag t == k)).map (fun t => t.amount)).sum))

/-- The lookup `spendingMap.get(b.tag) || 0` (a missing tag spends zero;
the JavaScript falsy fallback on a stored `0` is the identity). -/
def lookupSpent (spending : List (String × Rat)) (tag : String) : Rat :=
  match spending.find? (fun p => p.1 == tag) with
  | some p => p.2
  | none => 0

/-- `getBudgetStatuses` (`budgets.ts`), with the month and the transaction
table passed explicitly (the production caller defaults the month to the
current calendar month and reads the table from the store). -/
def getBudgetStatuses (budgets : List Budget) (txns : List TxnRow)
    (month : String) : List BudgetStatus :=
  if budgets.isEmpty then []
  else
    let spending := getSpendingByTagForMonth txns month
    budgets.map (fun b =>
      let spent := lookupSpent spending b.tag
      let remaining := max 0 (b.monthly_limit - spent)
      let percentUsed := if 0 < b.monthly_limit then spent / b.monthly_limit else 0
      { tag := b.tag, monthly_limit := b.monthly_limit,
        alert_threshold := b.alert_threshold,
        spent := roundCents spent, remaining := roundCents remaining,
        percent_used := roundTo3 percentUsed,
        over_budget := decide (b.monthly_limit < spent) })

/-- The spend-only resolved-tag total for one tag and month, exactly as the
spec words it (to be compared with the grouped aggregation). -/
def specSpent (txns : List TxnRow) (month tag : String) : Rat :=
  ((txns.filter (fun t =>
      decide (0 < t.amount) && (monthOf t.date == month) && (resolvedTag t == tag))).map
    (fun t => t.amount)).sum

/-! ## CSV export (`src/core/export.ts`) -/

/-- The dynamic type of a CSV cell value in `escapeCsv`
(`string | null | boolean | number`). -/
inductive CsvValue where
  | nullv : CsvValue
  | str : String → CsvValue
  | num : Rat → CsvValue
  | boolv : Bool → CsvValue
deriving Repr, DecidableEq

/-- Decimal digits of the fractional part `r / d`, up to `fuel` digits
(JavaScript numbers are dyadic rationals, whose decimal expansions
terminate; 20 digits cover every double the program can print). -/
def fracDigits : Nat → Nat → Nat → List Char
  | 0, _, _ => []
  | _ + 1, 0, _ => []
  | fuel + 1, r, d =>
    let r10 := r * 10
    Char.ofNat (48 + (r10 / d) % 10) :: fracDigits fuel (r10 % d) d

/-- Model of JavaScript `String(number)` for terminating decimals. -/
def ratDecimalString (q : Rat) : String :=
  let sign := if q < 0 then "-" else ""
  let n := q.num.natAbs
  let d := q.den
  let frac := fracDigits 20 (n % d) d
  sign ++ toString (n / d) ++ (if frac.isEmpty then "" else "." ++ String.mk frac)

/-- JavaScript `String(value)` on a CSV cell. -/
def jsValueString : CsvValue → String
  | .nullv => "null"
  | .str s => s
  | .num q => ratDecimalString q
  | .boolv b => if b then "true" else "false"

/-- Model of `str.includes(c)` for a one-character needle: some character
of the string equals it. -/
def strHasChar (s : String) (c : Char) : Bool := s.data.contains c

/-- `escapeCsv` (`export.ts`): null renders empty; a value whose string
form contains a comma, double quote, newline or carriage return is wrapped
in double quotes with embedded quotes doubled. -/
def escapeCsv (v : CsvValue) : String :=
  match v with
  | .nullv => ""
  | _ =>
    let str := jsValueString v
    if strHasChar str ',' || strHasChar str '"' || strHasChar str '\n' || strHasChar str '\r'
    then "\"" ++ jsReplaceQuotes str ++ "\""
    else str

/-- The exported row shape (`TransactionResponse` in `types/index.ts`). -/
structure TransactionResponse where
  transaction_id : String
  account_id : String
  amount : Rat
  date : String
  name : String
  merchant_name : Option String
  pending : Bool
  category : Option String
  subcategory : Option String
  payment_channel : Option String
  tag : Option String
deriving Repr, DecidableEq

/-- Lift an optional string column to a CSV cell. -/
def optCell (m : Option String) : CsvValue :=
  match m with
  | some s => .str s
  | none => .nullv

def CSV_HEADERS : List String :=
  ["transaction_id", "account_id", "date", "name", "merchant_name", "amount",
   "category", "subcategory", "tag", "pending", "payment_channel"]

/-- One data row of `exportCsv`: the eleven cells in header order, each
escaped, joined with commas. -/
def csvRow (t : TransactionResponse) : String :=
  String.intercalate ","
    (([CsvValue.str t.transaction_id, .str t.account_id, .str t.date, .str t.name,
       optCell t.merchant_name, .num t.amount, optCell t.category,
       optCell t.subcategory, optCell t.tag, .boolv t.pending,
       optCell t.payment_channel]).map escapeCsv)

/-- `exportCsv` (`export.ts`): header line, one row per transaction, lines
joined by newlines with one trailing newline. -/
def exportCsv (ts : List TransactionResponse) : String :=
  String.intercalate "\n" (String.intercalate "," CSV_HEADERS :: ts.map csvRow) ++ "\n"

/-! ## FTS5 query construction (`searchFts` in `db.ts`)

`query.trim().split(/\s+/).filter(Boolean)` extracts the maximal runs of
non-whitespace characters; `wordsOf` computes exactly those runs.
The MATCH string wraps each term in double quotes (embedded quotes
doubled) and joins the phrases with OR. The FTS5 grammar fragment the
claim appeals to (SQLite: a string literal is a double-quoted run in
which embedded quotes are doubled; phrases may be OR-combined) is
modelled by `FtsBody`/`FtsMatch`. -/

def isWsChar (c : Char) : Bool :=
  c == ' ' || c == '\t' || c == '\n' || c == '\r' || c == '\x0b' || c == '\x0c'

/-- Accumulating scan behind `wordsOf`. -/
def wordsOfAux : List Char → List Char → List (List Char)
  | [], acc => if acc.isEmpty then [] else [acc.reverse]
  | c :: rest, acc =>
    if isWsChar c then
      if acc.isEmpty then wordsOfAux rest [] else acc.reverse :: wordsOfAux rest []
    else wordsOfAux rest (c :: acc)

/-- The maximal non-whitespace runs of a character sequence: the model of
`query.trim().split(/\s+/).filter(Boolean)`. -/
def wordsOf (cs : List Char) : List (List Char) := wordsOfAux cs []

/-- One quoted FTS5 phrase: embedded quotes doubled, wrapped in quotes
(the map body of the `ftsQuery` construction). -/
def quoteTerm (t : List Char) : List Char := '"' :: (escQuotes t ++ ['"'])

def orSep : List Char := [' ', 'O', 'R', ' ']

/-- `join(" OR ")` at character level. -/
def joinOr : List (List Char) → List Char
  | [] => []
  | [t] => t
  | t :: ts => t ++ orSep ++ joinOr ts

/-- The MATCH expression `searchFts` constructs, or `none` when the query
has no terms (in which case `searchFts` returns early and never queries). -/
def ftsMatchExpr (query : List Char) : Option (List Char) :=
  match wordsOf query with
  | [] => none
  | ts => some (joinOr (ts.map quoteTerm))

/-- Body of an FTS5 string literal: any characters, with every embedded
double quote doubled. -/
inductive FtsBody : List Char → Prop
  | nil : FtsBody []
  | chr {c : Char} {cs : List Char} : c ≠ '"' → FtsBody cs → FtsBody (c :: cs)
  | dquo {cs : List Char} : FtsBody cs → FtsBody ('"' :: '"' :: cs)

/-- A syntactically valid FTS5 MATCH expression of the shape the code
builds: one quoted string phrase, or a quoted string phrase followed by
` OR ` and another such expression. -/
inductive FtsMatch : List Char → Prop
  | phrase {b : List Char} : FtsBody b → FtsMatch ('"' :: (b ++ ['"']))
  | orMore {b rest : List Char} : FtsBody b → FtsMatch rest →
      FtsMatch ('"' :: (b ++ ['"'] ++ orSep ++ rest))

/-! ## Example fixtures used by witnesses and counterexamples -/

def exTxnInput1 : TxnInput where
  transaction_id := "txn_1"
  account_id := "acc_1"
  amount := 10
  iso_currency_code := some "USD"
  date := "2024-06-15"
  name := "Starbucks Coffee"
  merchant_name := some "Starbucks"
  pending := 0
  category := some "FOOD_AND_DRINK"
  subcategory := none
  payment_channel := some "online"
  transaction_type := some "place"
  authorized_date := some "2024-06-15"

def exTxnInput2 : TxnInput :=
  { exTxnInput1 with amount := 50, name := "Starbucks Latte", date := "2024-06-16" }

/-- A stored row whose merchant name is the empty string (non-null). -/
def exRowEmptyMerchant : TxnRow where
  toTxnInput := { exTxnInput1 with name := "Direct Deposit", merchant_name := some "" }
  tag := none

/-- An untagged stored row. -/
def exUntagged : TxnRow where
  toTxnInput := exTxnInput1
  tag := none

def exRuleCoffee : TagRule where
  id := 1
  pattern := "starbucks"
  tag := "coffee"
  priority := 10

/-- A later rule with strictly higher priority matching the same rows. -/
def exRuleFood : TagRule where
  id := 2
  pattern := "starbucks"
  tag := "generic-food"
  priority := 99

/-- A budget configured with a negative monthly limit (nothing in the
budget path validates the sign). -/
def exBudgetNeg : Budget where
  id := 1
  tag := "travel"
  monthly_limit := -100
  alert_threshold := 9 / 10

/-- A spend transaction resolved to the `travel` tag in June 2024. -/
def exSpendTxn : TxnRow where
  toTxnInput := { exTxnInput1 with amount := 50 }
  tag := some "travel"

def exAccountA : AccountInput where
  account_id := "acc_9"
  item_id := "item_A"
  name := "Checking"
  official_name := some "Premium Checking"
  type := "depository"
  subtype := some "checking"
  mask := some "1234"
  current_balance := some 1000
  available_balance := some 900
  iso_currency_code := some "USD"

/-- A second upsert of the same account id, differing in `item_id` among
other fields. -/
def exAccountB : AccountInput :=
  { exAccountA with
    item_id := "item_B",
    name := "Checking Renamed",
    current_balance := some 1200 }

def exPlaidTxn : PlaidTxn where
  transaction_id := "pt1"
  account_id := "acc_1"
  amount := 12
  iso_currency_code := some "USD"
  date := "2024-06-17"
  name := "Coffee"
  merchant_name := some "Starbucks"
  pending := false
  pfc_primary := some "FOOD"
  pfc_detailed := none
  category := ["food", "coffee"]
  payment_channel := "online"
  transaction_type := some "place"
  authorized_date := none

/-- A single final page carrying one added transaction. -/
def exPage : Page where
  added := [exPlaidTxn]
  modified := []
  removed := []
  accounts := []
  has_more := false
  next_cursor := "c1"

/-- A feed that answers the first request and fails any other cursor. -/
def exFeedOk : String → Option Page :=
  fun c => if c = "" then some exPage else none

/-- A feed whose every page request fails. -/
def exFeedFail : String → Option Page := fun _ => none

def exDb : Db where
  accounts := []
  transactions := []
  sync_state := []

/-- The database after one successful pass of `exFeedOk` for item1. -/
def exDbSynced : Db where
  accounts := []
  transactions := [{ toTxnInput := mapPlaidTransaction exPlaidTxn, tag := none }]
  sync_state := [("item1", "c1")]

def exRespSynced : SyncResponse where
  added := 1
  modified := 0
  removed := 0
  cursor := "c1"
  has_more := false

/-! ## Theorems -/

/-- Claim C7, counterexample: the claim asserts that `display_name` equals
`merchant_name` whenever `merchant_name` is non-null; the record whose
merchant name is the (non-null) empty string falls back to `name`
instead, because the getter uses JavaScript truthiness. -/
theorem displayName_nonNull_claim_false :
    ¬ (∀ (t : TxnRow) (m : String), t.merchant_name = some m → displayName t = m) := by
  intro h
  have hm : exRowEmptyMerchant.merchant_name = some "" := rfl
  have := h exRowEmptyMerchant "" hm
  have hv : displayName exRowEmptyMerchant = "Direct Deposit" := rfl
  rw [hv] at this
  exact absurd this (by decide)

/-- Claim C7, amended: for every transaction record, `display_name` equals
`merchant_name` whenever `merchant_name` is non-null and non-empty, and
equals `name` otherwise (when `merchant_name` is null or empty). -/
theorem displayName_fallback (t : TxnRow) :
    (∀ m, t.merchant_name = some m → m ≠ "" → displayName t = m) ∧
    ((t.merchant_name = none ∨ t.merchant_name = some "") → displayName t = t.name) := by
  constructor
  · intro m hm hne
    simp [displayName, jsStrOr, hm, hne]
  · rintro (hm | hm) <;> simp [displayName, jsStrOr, hm]

/-- Claim C7, witness for the amended statement at concrete records. -/
theorem displayName_fallback_witness :
    displayName { toTxnInput := exTxnInput1, tag := none } = "Starbucks" ∧
    displayName exRowEmptyMerchant = "Direct Deposit" := by
  constructor
  · exact (displayName_fallback { toTxnInput := exTxnInput1, tag := none }).1
      "Starbucks" rfl (by decide)
  · exact (displayName_fallback exRowEmptyMerchant).2 (Or.inr rfl)

/-- Claim C6: `getBurnReport` classifies the trend as stable whenever there
are fewer than 3 monthly buckets; otherwise, with `d` the average of the
month-over-month deltas of the last 3 buckets and `t` five percent of the
average spend over those buckets, the trend is increasing when `d > t`,
decreasing when `d < -t`, and stable otherwise. -/
theorem computeTrend_spec :
    (∀ ms : List MonthlyBurn, ms.length < 3 → computeTrend ms = .stable) ∧
    (∀ (ms : List MonthlyBurn) (a b c : MonthlyBurn),
      computeTrend (ms ++ [a, b, c]) =
        (if ((b.total - a.total) + (c.total - b.total)) / 2 >
            ((a.total + b.total + c.total) / 3) * (5 / 100) then .increasing
         else if ((b.total - a.total) + (c.total - b.total)) / 2 <
            -(((a.total + b.total + c.total) / 3) * (5 / 100)) then .decreasing
         else .stable)) ∧
    (∀ rows, (getBurnReport rows).trend = computeTrend (getBurnReport rows).months) := by
  refine ⟨?_, ?_, ?_⟩
  · intro ms h
    simp [computeTrend, h]
  · intro ms a b c
    have h3 : (ms ++ [a, b, c]).length = ms.length + 3 := by simp
    have hlt : ¬ ((ms ++ [a, b, c]).length < 3) := by omega
    have hdrop : (ms ++ [a, b, c]).drop ((ms ++ [a, b, c]).length - 3) = [a, b, c] := by
      rw [h3]
      have h4 : ms.length + 3 - 3 = ms.length := by omega
      rw [h4]
      exact List.drop_left ms [a, b, c]
    simp only [computeTrend, if_neg hlt, hdrop, List.tail_cons, List.zip_cons_cons,
      List.zip_nil_right, List.map_cons, List.map_nil, List.sum_cons, List.sum_nil,
      List.length_cons, List.length_nil]
    norm_num
    simp only [← add_assoc]
  · intro rows
    rfl

/-- Claim C6, witness: fewer than 3 buckets is stable, and the spec's
100 to 200 to 400 doubling pattern is classified increasing. -/
theorem computeTrend_spec_witness :
    computeTrend [MonthlyBurn.mk "2024-05" 1000] = .stable ∧
    computeTrend [MonthlyBurn.mk "2024-01" 100, MonthlyBurn.mk "2024-02" 200,
      MonthlyBurn.mk "2024-03" 400] = .increasing := by
  constructor
  · exact computeTrend_spec.1 [MonthlyBurn.mk "2024-05" 1000] (by decide)
  · have h := computeTrend_spec.2.1 [] (MonthlyBurn.mk "2024-01" 100)
      (MonthlyBurn.mk "2024-02" 200) (MonthlyBurn.mk "2024-03" 400)
    rw [List.nil_append] at h
    rw [h]
    norm_num

/-! ### Generic lemmas about keyed upserts -/

theorem filter_key_length {α : Type} (keyOf : α → String) (id : String) :
    ∀ l : List α, (l.map keyOf).Nodup →
      (l.filter (fun r => keyOf r == id)).length =
        if l.any (fun r => keyOf r == id) then 1 else 0
  | [], _ => by simp
  | a :: l, h => by
    simp only [List.map_cons, List.nodup_cons] at h
    by_cases ha : keyOf a = id
    · have hnone : ∀ x ∈ l, ¬ (keyOf x == id) = true := by
        intro x hx hbeq
        exact h.1 (ha ▸ (beq_iff_eq.1 hbeq) ▸ List.mem_map_of_mem keyOf hx)
      have hfil : l.filter (fun r => keyOf r == id) = [] :=
        List.filter_eq_nil_iff.2 hnone
      have hany : l.any (fun r => keyOf r == id) = false := by
        rw [List.any_eq_false]
        exact hnone
      simp [List.filter_cons, List.any_cons, ha, hfil, hany]
    · have hbeq : (keyOf a == id) = false := by
        simp [ha]
      simp [List.filter_cons, List.any_cons, hbeq, filter_key_length keyOf id l h.2]

theorem sqlUpsertRow_any {α : Type} (keyOf : α → String) (id : String)
    (oc : α → α) (nr : α) (l : List α)
    (hoc : ∀ x, keyOf x = id → keyOf (oc x) = id) (hnr : keyOf nr = id) :
    (sqlUpsertRow (fun r => keyOf r == id) oc nr l).any (fun r => keyOf r == id) = true := by
  unfold sqlUpsertRow
  split
  · rename_i hany
    rw [List.any_eq_true] at hany ⊢
    obtain ⟨r0, hr0, hkm⟩ := hany
    refine ⟨oc r0, ?_, ?_⟩
    · have := List.mem_map_of_mem
        (fun r => if (keyOf r == id) then oc r else r) hr0
      simpa [hkm] using this
    · simp [hoc r0 (beq_iff_eq.1 hkm)]
  · rw [List.any_eq_true]
    exact ⟨nr, by simp, by simp [hnr]⟩

theorem sqlUpsertRow_map_keyOf {α : Type} (keyOf : α → String) (id : String)
    (oc : α → α) (nr : α) (l : List α)
    (hoc : ∀ x, keyOf x = id → keyOf (oc x) = id) (hnr : keyOf nr = id) :
    (sqlUpsertRow (fun r => keyOf r == id) oc nr l).map keyOf =
      if l.any (fun r => keyOf r == id) then l.map keyOf else l.map keyOf ++ [id] := by
  unfold sqlUpsertRow
  split
  · rw [List.map_map]
    apply List.map_congr_left
    intro x _
    by_cases h : keyOf x = id
    · simp [h, hoc x h]
    · simp [h]
  · simp [hnr]

theorem sqlUpsertRow_nodup {α : Type} (keyOf : α → String) (id : String)
    (oc : α → α) (nr : α) (l : List α)
    (hoc : ∀ x, keyOf x = id → keyOf (oc x) = id) (hnr : keyOf nr = id)
    (hnodup : (l.map keyOf).Nodup) :
    ((sqlUpsertRow (fun r => keyOf r == id) oc nr l).map keyOf).Nodup := by
  rw [sqlUpsertRow_map_keyOf keyOf id oc nr l hoc hnr]
  split
  · exact hnodup
  · rename_i hany
    rw [List.nodup_append]
    refine ⟨hnodup, List.nodup_singleton id, ?_⟩
    intro x hx hx1
    rw [List.mem_singleton] at hx1
    subst hx1
    obtain ⟨r0, hr0, hkeq⟩ := List.mem_map.1 hx
    exact hany (List.any_eq_true.2 ⟨r0, hr0, by simp [hkeq]⟩)

theorem sqlUpsertRow_filter_one {α : Type} (keyOf : α → String) (id : String)
    (oc : α → α) (nr : α) (l : List α)
    (hoc : ∀ x, keyOf x = id → keyOf (oc x) = id) (hnr : keyOf nr = id)
    (hnodup : (l.map keyOf).Nodup) :
    ((sqlUpsertRow (fun r => keyOf r == id) oc nr l).filter
      (fun r => keyOf r == id)).length = 1 := by
  rw [filter_key_length keyOf id _ (sqlUpsertRow_nodup keyOf id oc nr l hoc hnr hnodup),
    if_pos (sqlUpsertRow_any keyOf id oc nr l hoc hnr)]

theorem sqlUpsertRow_mem_match {α : Type} (km : α → Bool) (oc : α → α) (nr : α)
    (l : List α) (r : α) (hr : r ∈ sqlUpsertRow km oc nr l) (hkm : km r = true) :
    (∃ r0 ∈ l, km r0 = true ∧ r = oc r0) ∨ r = nr := by
  unfold sqlUpsertRow at hr
  split at hr
  · obtain ⟨r0, hr0, heq⟩ := List.mem_map.1 hr
    by_cases h : km r0 = true
    · exact Or.inl ⟨r0, hr0, h, by rw [← heq, if_pos h]⟩
    · rw [if_neg h] at heq
      exact absurd (heq ▸ hkm) h
  · rename_i hany
    rcases List.mem_append.1 hr with hmem | hmem
    · exact absurd (List.any_eq_true.2 ⟨r, hmem, hkm⟩) hany
    · exact Or.inr (by simpa using hmem)

theorem sqlUpsertRow_mem_match_of_any {α : Type} (km : α → Bool) (oc : α → α)
    (nr : α) (l : List α) (hany : l.any km = true) (r : α)
    (hr : r ∈ sqlUpsertRow km oc nr l) (hkm : km r = true) :
    ∃ r0 ∈ l, km r0 = true ∧ r = oc r0 := by
  unfold sqlUpsertRow at hr
  rw [if_pos hany] at hr
  obtain ⟨r0, hr0, heq⟩ := List.mem_map.1 hr
  by_cases h : km r0 = true
  · exact ⟨r0, hr0, h, by rw [← heq, if_pos h]⟩
  · rw [if_neg h] at heq
    exact absurd (heq ▸ hkm) h

theorem sqlUpsertRow_length {α : Type} (km : α → Bool) (oc : α → α) (nr : α)
    (l : List α) :
    (sqlUpsertRow km oc nr l).length = if l.any km then l.length else l.length + 1 := by
  unfold sqlUpsertRow
  split <;> simp

/-- A single-element batch is one row write. -/
theorem upsertTransactions_singleton (table : List TxnRow) (t : TxnInput) :
    upsertTransactions table [t] = upsertTxnRow table t := rfl

/-- A single-element batch is one row write. -/
theorem upsertAccounts_singleton (now : String) (table : List AccountRow)
    (a : AccountInput) :
    upsertAccounts now table [a] = upsertAccountRow now table a := rfl

/-- Claim C4, counterexample: the claim asserts the surviving account row
carries the values supplied by the second upsert, but the account conflict
clause omits `item_id`: upserting the same account id with item_id
`item_A` and then `item_B` leaves one row that still carries `item_A`,
not the second upsert's `item_B`. -/
theorem upsertAccounts_latest_values_claim_false :
    upsertAccounts "t2" (upsertAccounts "t1" [] [exAccountA]) [exAccountB] =
      [{ toAccountInput := { exAccountB with item_id := "item_A" },
         updated_at := "t2" }] ∧
    exAccountB.item_id = "item_B" ∧
    ({ exAccountB with item_id := "item_A" } : AccountInput).item_id ≠
      exAccountB.item_id := by
  exact ⟨rfl, rfl, by decide⟩

/-- Claim C4, amended: upserting the same transaction id twice with
different field values leaves exactly one row for that key whose supplied
fields are the second upsert's values; upserting the same account id twice
leaves exactly one row whose conflict-updated columns (name,
official_name, type, subtype, mask, current_balance, available_balance,
iso_currency_code, updated_at) are the second upsert's values while
`item_id` is retained from the already stored row (the conflict clause
omits it); in both tables the row count does not grow from the second
upsert. -/
theorem upsert_idempotent :
    (∀ (table : List TxnRow) (t1 t2 : TxnInput),
      (table.map (fun r => r.transaction_id)).Nodup →
      t1.transaction_id = t2.transaction_id →
      ((upsertTransactions (upsertTransactions table [t1]) [t2]).filter
          (fun r => r.transaction_id == t2.transaction_id)).length = 1 ∧
      (∀ r ∈ upsertTransactions (upsertTransactions table [t1]) [t2],
          r.transaction_id = t2.transaction_id → r.toTxnInput = t2) ∧
      (upsertTransactions (upsertTransactions table [t1]) [t2]).length =
        (upsertTransactions table [t1]).length) ∧
    (∀ (now1 now2 : String) (table : List AccountRow) (a1 a2 : AccountInput),
      (table.map (fun r => r.account_id)).Nodup →
      a1.account_id = a2.account_id →
      ((upsertAccounts now2 (upsertAccounts now1 table [a1]) [a2]).filter
          (fun r => r.account_id == a2.account_id)).length = 1 ∧
      (∀ r ∈ upsertAccounts now2 (upsertAccounts now1 table [a1]) [a2],
          r.account_id = a2.account_id →
          r.name = a2.name ∧ r.official_name = a2.official_name ∧
          r.type = a2.type ∧ r.subtype = a2.subtype ∧ r.mask = a2.mask ∧
          r.current_balance = a2.current_balance ∧
          r.available_balance = a2.available_balance ∧
          r.iso_currency_code = a2.iso_currency_code ∧ r.updated_at = now2 ∧
          ∃ r1 ∈ upsertAccounts now1 table [a1],
            r1.account_id = a2.account_id ∧ r.item_id = r1.item_id) ∧
      (upsertAccounts now2 (upsertAccounts now1 table [a1]) [a2]).length =
        (upsertAccounts now1 table [a1]).length) := by
  constructor
  · intro table t1 t2 hnodup h12
    simp only [upsertTransactions_singleton, upsertTxnRow]
    rw [h12]
    have hnodup1 := sqlUpsertRow_nodup (fun (r : TxnRow) => r.transaction_id)
      t2.transaction_id (fun r => { toTxnInput := t1, tag := r.tag })
      { toTxnInput := t1, tag := none } table (fun x _ => h12) h12 hnodup
    refine ⟨?_, ?_, ?_⟩
    · exact sqlUpsertRow_filter_one (fun (r : TxnRow) => r.transaction_id)
        t2.transaction_id _ _ _ (fun x _ => rfl) rfl hnodup1
    · intro r hr hid
      have hkm : (r.transaction_id == t2.transaction_id) = true := by simp [hid]
      rcases sqlUpsertRow_mem_match _ _ _ _ r hr hkm with ⟨r0, _, _, heq⟩ | heq <;>
        rw [heq]
    · rw [sqlUpsertRow_length, if_pos (sqlUpsertRow_any
        (fun (r : TxnRow) => r.transaction_id) t2.transaction_id _ _ table
        (fun x _ => h12) h12)]
  · intro now1 now2 table a1 a2 hnodup h12
    simp only [upsertAccounts_singleton, upsertAccountRow]
    rw [h12]
    have hnodup1 := sqlUpsertRow_nodup (fun (r : AccountRow) => r.account_id)
      a2.account_id (accountOnConflict now1 a1)
      { toAccountInput := a1, updated_at := now1 } table (fun x _ => h12) h12 hnodup
    have hany1 := sqlUpsertRow_any (fun (r : AccountRow) => r.account_id)
      a2.account_id (accountOnConflict now1 a1)
      { toAccountInput := a1, updated_at := now1 } table (fun x _ => h12) h12
    refine ⟨?_, ?_, ?_⟩
    · exact sqlUpsertRow_filter_one (fun (r : AccountRow) => r.account_id)
        a2.account_id _ _ _ (fun x _ => rfl) rfl hnodup1
    · intro r hr hid
      have hkm : (r.account_id == a2.account_id) = true := by simp [hid]
      obtain ⟨r0, hr0, hkm0, heq⟩ :=
        sqlUpsertRow_mem_match_of_any _ _ _ _ hany1 r hr hkm
      subst heq
      exact ⟨rfl, rfl, rfl, rfl, rfl, rfl, rfl, rfl, rfl, r0, hr0,
        beq_iff_eq.1 hkm0, rfl⟩
    · rw [sqlUpsertRow_length, if_pos hany1]

/-- Claim C4, witness: two upserts of the same transaction id (and, for
accounts, of the same account id) on the empty table leave exactly one
row, and the second upsert does not grow either table. -/
theorem upsert_idempotent_witness :
    ((upsertTransactions (upsertTransactions [] [exTxnInput1]) [exTxnInput2]).filter
        (fun r => r.transaction_id == exTxnInput2.transaction_id)).length = 1 ∧
    (upsertTransactions (upsertTransactions [] [exTxnInput1]) [exTxnInput2]).length =
      (upsertTransactions [] [exTxnInput1]).length ∧
    ((upsertAccounts "t2" (upsertAccounts "t1" [] [exAccountA]) [exAccountB]).filter
        (fun r => r.account_id == exAccountB.account_id)).length = 1 ∧
    (upsertAccounts "t2" (upsertAccounts "t1" [] [exAccountA]) [exAccountB]).length =
      (upsertAccounts "t1" [] [exAccountA]).length := by
  have h1 := upsert_idempotent.1 [] exTxnInput1 exTxnInput2 (by simp) rfl
  have h2 := upsert_idempotent.2 "t1" "t2" [] exAccountA exAccountB (by simp) rfl
  exact ⟨h1.1, h1.2.2, h2.1, h2.2.2⟩

/-- Claim C9: re-upserting an existing transaction id rewrites every
supplied (upstream-sourced) column but keeps each conflicting row's `tag`
column, because the conflict-update clause omits `tag`. -/
theorem upsertTransactions_preserves_tag (table : List TxnRow) (t : TxnInput)
    (h : table.any (fun r => r.transaction_id == t.transaction_id) = true) :
    upsertTransactions table [t] =
      table.map (fun r =>
        if r.transaction_id == t.transaction_id then { toTxnInput := t, tag := r.tag }
        else r) := by
  simp only [upsertTransactions_singleton, upsertTxnRow, sqlUpsertRow, h, if_true]

/-- Claim C9, witness: re-upserting over a tagged row updates the upstream
fields and keeps the tag. -/
theorem upsertTransactions_preserves_tag_witness :
    upsertTransactions [{ toTxnInput := exTxnInput1, tag := some "coffee" }]
        [exTxnInput2] =
      [{ toTxnInput := exTxnInput2, tag := some "coffee" }] := by
  have h := upsertTransactions_preserves_tag
    [{ toTxnInput := exTxnInput1, tag := some "coffee" }] exTxnInput2 (by decide)
  rw [h]
  decide

/-- Claim C8: `exportCsv` emits the exact specified header line followed by
one row per transaction; a field containing a comma, double quote or
newline is wrapped in double quotes with embedded quotes doubled; null
fields render as the empty string (never the literal word null); the
output ends with a trailing newline; the empty list yields exactly the
header line. -/
theorem exportCsv_spec :
    (exportCsv [] =
      "transaction_id,account_id,date,name,merchant_name,amount,category,subcategory,tag,pending,payment_channel\n") ∧
    (∀ ts : List TransactionResponse,
      exportCsv ts =
        String.intercalate "\n"
          ("transaction_id,account_id,date,name,merchant_name,amount,category,subcategory,tag,pending,payment_channel"
            :: ts.map csvRow) ++ "\n") ∧
    (∀ s : String,
      (strHasChar s ',' = true ∨ strHasChar s '"' = true ∨ strHasChar s '\n' = true) →
      escapeCsv (.str s) = "\"" ++ jsReplaceQuotes s ++ "\"") ∧
    escapeCsv .nullv = "" ∧ escapeCsv .nullv ≠ "null" := by
  refine ⟨rfl, ?_, ?_, rfl, by decide⟩
  · intro ts
    have hh : String.intercalate "," CSV_HEADERS =
        "transaction_id,account_id,date,name,merchant_name,amount,category,subcategory,tag,pending,payment_channel" :=
      rfl
    rw [exportCsv, hh]
  · intro s h
    rcases h with h | h | h <;> simp [escapeCsv, jsValueString, h]

/-- Claim C8, witness: the spec example field renders with its embedded
quotes doubled, inside wrapping quotes. -/
theorem exportCsv_spec_witness :
    escapeCsv (.str "Salary \"Direct Deposit\"") = "\"Salary \"\"Direct Deposit\"\"\"" := by
  have h := exportCsv_spec.2.2.1 "Salary \"Direct Deposit\""
    (Or.inr (Or.inl (by decide)))
  rw [h]
  rfl

/-- Doubling every embedded quote always yields a well-formed FTS5 string
literal body. -/
theorem escQuotes_body : ∀ t : List Char, FtsBody (escQuotes t)
  | [] => FtsBody.nil
  | c :: cs => by
    unfold escQuotes
    by_cases h : c = '"'
    · rw [if_pos h]
      exact FtsBody.dquo (escQuotes_body cs)
    · rw [if_neg h]
      exact FtsBody.chr h (escQuotes_body cs)

/-- OR-joining any nonempty list of quoted terms yields a syntactically
valid FTS5 MATCH expression. -/
theorem joinOr_valid : ∀ ts : List (List Char), ts ≠ [] →
    FtsMatch (joinOr (ts.map quoteTerm))
  | [], h => absurd rfl h
  | [t], _ => FtsMatch.phrase (escQuotes_body t)
  | t :: t2 :: ts, _ => by
    have ih := joinOr_valid (t2 :: ts) (by simp)
    show FtsMatch (quoteTerm t ++ orSep ++ joinOr ((t2 :: ts).map quoteTerm))
    have hshape : quoteTerm t ++ orSep ++ joinOr ((t2 :: ts).map quoteTerm) =
        '"' :: (escQuotes t ++ ['"'] ++ orSep ++ joinOr ((t2 :: ts).map quoteTerm)) := by
      simp [quoteTerm, List.append_assoc]
    rw [hshape]
    exact FtsMatch.orMore (escQuotes_body t) ih

/-- Claim C10: for every query with at least one whitespace-separated term,
`searchFts` builds its MATCH expression by wrapping each term in double
quotes with embedded quotes doubled and OR-joining the phrases, and every
expression so built is a syntactically valid FTS5 MATCH expression (each
term appears only as a quoted string literal, so operator words and stray
quotes in user input are matched literally). -/
theorem searchFts_query_safe (q : List Char) (h : wordsOf q ≠ []) :
    ftsMatchExpr q = some (joinOr ((wordsOf q).map quoteTerm)) ∧
    ∀ e, ftsMatchExpr q = some e → FtsMatch e := by
  constructor
  · unfold ftsMatchExpr
    cases hw : wordsOf q with
    | nil => exact absurd hw h
    | cons t ts => rfl
  · intro e he
    unfold ftsMatchExpr at he
    cases hw : wordsOf q with
    | nil => rw [hw] at he; exact absurd he (by simp)
    | cons t ts =>
      rw [hw] at he
      have he' : joinOr ((t :: ts).map quoteTerm) = e := by
        simpa using he
      rw [← he']
      exact joinOr_valid (t :: ts) (by simp)

/-- Claim C10, witness: a query made of FTS5 operator words and a stray
quote produces the expected fully quoted, OR-joined, valid expression. -/
theorem searchFts_query_safe_witness :
    ftsMatchExpr ("AND NEAR\" x".data) =
      some (joinOr ((wordsOf ("AND NEAR\" x".data)).map quoteTerm)) ∧
    joinOr ((wordsOf ("AND NEAR\" x".data)).map quoteTerm) =
      "\"AND\" OR \"NEAR\"\"\" OR \"x\"".data := by
  exact ⟨(searchFts_query_safe ("AND NEAR\" x".data) (by decide)).1, by decide⟩

/-- Retagging a row by id does not change the id column of any row. -/
theorem updateTransactionTag_map_id (txns : List TxnRow) (id : String)
    (tag : Option String) :
    (updateTransactionTag txns id tag).map (fun t => t.transaction_id) =
      txns.map (fun t => t.transaction_id) := by
  unfold updateTransactionTag
  rw [List.map_map]
  apply List.map_congr_left
  intro x _
  by_cases h : x.transaction_id = id <;> simp [h]

/-- A row whose id differs from the updated one is untouched by
`updateTransactionTag`. -/
theorem mem_updateTransactionTag_of_ne {txns : List TxnRow} {r : TxnRow}
    (hr : r ∈ txns) (id : String) (tag : Option String)
    (hne : r.transaction_id ≠ id) : r ∈ updateTransactionTag txns id tag := by
  have hbeq : (r.transaction_id == id) = false := by simp [hne]
  have h := List.mem_map_of_mem
    (fun t => if t.transaction_id == id then { t with tag := tag } else t) hr
  simpa [updateTransactionTag, hbeq] using h

/-- The tagging fold of `applyTagRules`, characterised pointwise: starting
from a table with distinct ids and a worklist of rows drawn from it (also
with distinct ids), the fold adds one to the counter per matched worklist
row and rewrites exactly the worklist rows by `tagStepSorted`. -/
theorem tagFold_spec (matcher : String → String → Bool) (sorted : List TagRule) :
    ∀ (u curr : List TxnRow) (n : Nat),
      (curr.map (fun t => t.transaction_id)).Nodup →
      (u.map (fun t => t.transaction_id)).Nodup →
      (∀ t ∈ u, t ∈ curr) →
      u.foldl
        (fun acc t =>
          match firstMatchTag matcher sorted (haystack t) with
          | some tg => (acc.1 + 1, updateTransactionTag acc.2 t.transaction_id (some tg))
          | none => acc)
        (n, curr) =
      (n + (u.filter (fun t => (firstMatchTag matcher sorted (haystack t)).isSome)).length,
       curr.map (fun c => if c ∈ u then tagStepSorted matcher sorted c else c))
  | [], curr, n, _, _, _ => by
    simp
  | t :: rest, curr, n, hcurr, hu, hmem => by
    have hmemt : t ∈ curr := hmem t (List.mem_cons_self t rest)
    simp only [List.map_cons, List.nodup_cons] at hu
    have hrestmem : ∀ r ∈ rest, r.transaction_id ≠ t.transaction_id := by
      intro r hr heq
      exact hu.1 (heq ▸ List.mem_map_of_mem (fun x => x.transaction_id) hr)
    have htnotin : t ∉ rest := by
      intro hin
      exact hrestmem t hin rfl
    rw [List.foldl_cons]
    cases hm : firstMatchTag matcher sorted (haystack t) with
    | none =>
      have ih := tagFold_spec matcher sorted rest curr n hcurr hu.2
        (fun r hr => hmem r (List.mem_cons_of_mem t hr))
      simp only [hm]
      rw [ih]
      simp only [Prod.mk.injEq]
      constructor
      · simp [List.filter_cons, hm]
      · apply List.map_congr_left
        intro c hc
        by_cases hct : c = t
        · subst hct
          simp [htnotin, tagStepSorted, hm]
        · by_cases hcr : c ∈ rest <;> simp [hcr, hct, List.mem_cons]
    | some tg =>
      have hupd : ((updateTransactionTag curr t.transaction_id (some tg)).map
          (fun x => x.transaction_id)).Nodup := by
        rw [updateTransactionTag_map_id]
        exact hcurr
      have hmem' : ∀ r ∈ rest, r ∈ updateTransactionTag curr t.transaction_id (some tg) :=
        fun r hr => mem_updateTransactionTag_of_ne (hmem r (List.mem_cons_of_mem t hr))
          t.transaction_id (some tg) (hrestmem r hr)
      have ih := tagFold_spec matcher sorted rest
        (updateTransactionTag curr t.transaction_id (some tg)) (n + 1) hupd hu.2 hmem'
      simp only [hm]
      rw [ih]
      simp only [Prod.mk.injEq]
      constructor
      · simp [List.filter_cons, hm]
        omega
      · unfold updateTransactionTag
        rw [List.map_map]
        apply List.map_congr_left
        intro c hc
        by_cases hid : c.transaction_id = t.transaction_id
        · have hct : c = t := List.inj_on_of_nodup_map hcurr hc hmemt hid
          subst hct
          have hnotin : ({ c with tag := some tg } : TxnRow) ∉ rest := by
            intro hin
            exact hu.1 (List.mem_map_of_mem (fun x => x.transaction_id) hin)
          simp [hid, hnotin, tagStepSorted, hm, List.mem_cons, htnotin]
        · have hct : c ≠ t := fun he => hid (by rw [he])
          by_cases hcr : c ∈ rest <;> simp [hid, hct, hcr, List.mem_cons]

/-- Pointwise characterisation of `applyTagRules` on a table with distinct
ids: the count is the number of untagged rows with a matching rule, and
each untagged row is rewritten by `tagStep` while tagged rows are never
revisited. -/
theorem applyTagRules_eq (matcher : String → String → Bool) (rules : List TagRule)
    (txns : List TxnRow) (h : (txns.map (fun t => t.transaction_id)).Nodup) :
    applyTagRules matcher rules txns =
      ((txns.filter (fun t => t.tag.isNone &&
          (firstMatchTag matcher (getTagRulesSorted rules) (haystack t)).isSome)).length,
       txns.map (fun t => if t.tag.isNone then tagStep matcher rules t else t)) := by
  simp only [applyTagRules]
  split
  · rename_i hemp
    have hnil : getTagRulesSorted rules = [] := by
      simpa [List.isEmpty_iff] using hemp
    simp [hnil, firstMatchTag, tagStep, tagStepSorted]
  · split
    · rename_i hemp2
      have hall : ∀ t ∈ txns, ¬ (t.tag.isNone = true) := by
        have hfil : txns.filter (fun t => t.tag.isNone) = [] := by
          simpa [List.isEmpty_iff] using hemp2
        exact List.filter_eq_nil_iff.1 hfil
      have h1 : txns.filter (fun t => t.tag.isNone &&
          (firstMatchTag matcher (getTagRulesSorted rules) (haystack t)).isSome) = [] := by
        apply List.filter_eq_nil_iff.2
        intro t ht
        simp [Bool.eq_false_iff.2 (hall t ht)]
      have h2 : txns.map (fun t => if t.tag.isNone then tagStep matcher rules t else t)
          = txns := by
        have hpt : ∀ t ∈ txns,
            (if t.tag.isNone then tagStep matcher rules t else t) = t := by
          intro t ht
          simp [Bool.eq_false_iff.2 (hall t ht)]
        calc txns.map (fun t => if t.tag.isNone then tagStep matcher rules t else t)
            = txns.map (fun t => t) := List.map_congr_left hpt
          _ = txns := by simp
      rw [h1, h2]
      rfl
    · have hu : ((txns.filter (fun t => t.tag.isNone)).map
          (fun t => t.transaction_id)).Nodup :=
        List.Nodup.sublist (List.Sublist.map _ (List.filter_sublist txns)) h
      have hfold := tagFold_spec matcher (getTagRulesSorted rules)
        (txns.filter (fun t => t.tag.isNone)) txns 0 h hu
        (fun t ht => List.mem_of_mem_filter ht)
      rw [hfold]
      simp only [Prod.mk.injEq]
      constructor
      · rw [Nat.zero_add, List.filter_filter]
        have hcomm : ∀ a ∈ txns,
            ((firstMatchTag matcher (getTagRulesSorted rules) (haystack a)).isSome &&
              a.tag.isNone) =
            (a.tag.isNone &&
              (firstMatchTag matcher (getTagRulesSorted rules) (haystack a)).isSome) := by
          intro a _
          exact Bool.and_comm _ _
        rw [List.filter_congr hcomm]
      · apply List.map_congr_left
        intro c hc
        by_cases hcN : c.tag.isNone = true
        · have hin : c ∈ txns.filter (fun t => t.tag.isNone) :=
            List.mem_filter.2 ⟨hc, hcN⟩
          simp [hin, hcN, tagStep]
        · have hnotin : c ∉ txns.filter (fun t => t.tag.isNone) :=
            fun hin => hcN (List.mem_filter.1 hin).2
          simp [hnotin, hcN]

/-- Tagging never changes the id column of any row. -/
theorem applyTagRules_map_id (matcher : String → String → Bool)
    (rules : List TagRule) (txns : List TxnRow)
    (h : (txns.map (fun t => t.transaction_id)).Nodup) :
    ((applyTagRules matcher rules txns).2).map (fun t => t.transaction_id) =
      txns.map (fun t => t.transaction_id) := by
  rw [applyTagRules_eq matcher rules txns h]
  rw [List.map_map]
  apply List.map_congr_left
  intro t _
  by_cases hN : t.tag.isNone = true
  · have hnone : t.tag = none := Option.isNone_iff_eq_none.1 hN
    cases hm : firstMatchTag matcher (getTagRulesSorted rules) (haystack t) <;>
      simp [hN, hnone, tagStep, tagStepSorted, hm]
  · have hne : t.tag ≠ none := by
      simpa [Option.isNone_iff_eq_none] using hN
    simp [hN, hne]

/-- Claim C3, counterexample: the claim asserts that after one run of
`applyTagRules`, a second run returns 0 newly-tagged even when new
higher-priority rules are added between the runs. With no rules, the first
run tags nothing; adding a matching rule afterwards makes the second run
tag 1 transaction, because only already-tagged rows are protected —
untagged rows are revisited. -/
theorem applyTagRules_second_run_zero_claim_false :
    (applyTagRules litMatch [] [exUntagged]).1 = 0 ∧
    (applyTagRules litMatch [exRuleCoffee]
      ((applyTagRules litMatch [] [exUntagged]).2)).1 = 1 := by
  constructor
  · rfl
  · rfl

/-- Claim C3, amended: after one run of `applyTagRules` over a ledger with
distinct transaction ids, a second run with the same rule set returns 0
newly-tagged and leaves the ledger unchanged; and under an arbitrary new
rule set (in particular with new higher-priority rules added), every
transaction whose tag is already non-null is never revisited — it stays in
the ledger unchanged and no row with its id carries a different value.
(A second run with new rules may still tag rows the first run left
untagged.) -/
theorem applyTagRules_tag_once (matcher : String → String → Bool)
    (rules rules2 : List TagRule) (txns txns1 : List TxnRow) (cnt : Nat)
    (h : (txns.map (fun t => t.transaction_id)).Nodup)
    (hrun : applyTagRules matcher rules txns = (cnt, txns1)) :
    applyTagRules matcher rules txns1 = (0, txns1) ∧
    (∀ t1 ∈ txns1, ∀ v, t1.tag = some v →
      t1 ∈ (applyTagRules matcher rules2 txns1).2 ∧
      ∀ t2 ∈ (applyTagRules matcher rules2 txns1).2,
        t2.transaction_id = t1.transaction_id → t2 = t1) := by
  have htx1 : txns1 = (applyTagRules matcher rules txns).2 := by rw [hrun]
  have h1 : (txns1.map (fun t => t.transaction_id)).Nodup := by
    rw [htx1, applyTagRules_map_id matcher rules txns h]
    exact h
  have hkey : ∀ t1 ∈ txns1, t1.tag.isNone = true →
      firstMatchTag matcher (getTagRulesSorted rules) (haystack t1) = none := by
    intro t1 ht1 hN
    rw [htx1, applyTagRules_eq matcher rules txns h] at ht1
    obtain ⟨t, ht, heq⟩ := List.mem_map.1 ht1
    by_cases htN : t.tag.isNone = true
    · have htnone : t.tag = none := Option.isNone_iff_eq_none.1 htN
      cases hm : firstMatchTag matcher (getTagRulesSorted rules) (haystack t) with
      | some tg =>
        rw [← heq] at hN
        simp [htN, htnone, tagStep, tagStepSorted, hm] at hN
      | none =>
        have ht1t : t1 = t := by
          rw [← heq]
          simp [htN, htnone, tagStep, tagStepSorted, hm]
        rw [ht1t]
        exact hm
    · have ht1t : t1 = t := by
        rw [← heq]
        simp [htN]
      rw [ht1t] at hN
      exact absurd hN htN
  constructor
  · rw [applyTagRules_eq matcher rules txns1 h1]
    have hcnt : txns1.filter (fun t => t.tag.isNone &&
        (firstMatchTag matcher (getTagRulesSorted rules) (haystack t)).isSome) = [] := by
      apply List.filter_eq_nil_iff.2
      intro t1 ht1
      by_cases hN : t1.tag.isNone = true
      · simp [hN, hkey t1 ht1 hN]
      · simp [hN]
    have hmap : txns1.map
        (fun t => if t.tag.isNone then tagStep matcher rules t else t) = txns1 := by
      have hpt : ∀ t1 ∈ txns1,
          (if t1.tag.isNone then tagStep matcher rules t1 else t1) = t1 := by
        intro t1 ht1
        by_cases hN : t1.tag.isNone = true
        · simp [hN, tagStep, tagStepSorted, hkey t1 ht1 hN]
        · simp [hN]
      calc txns1.map (fun t => if t.tag.isNone then tagStep matcher rules t else t)
          = txns1.map (fun t => t) := List.map_congr_left hpt
        _ = txns1 := by simp
    rw [hcnt, hmap]
    rfl
  · intro t1 ht1 v hv
    have hN1 : t1.tag.isNone = false := by simp [hv]
    constructor
    · rw [applyTagRules_eq matcher rules2 txns1 h1]
      have := List.mem_map_of_mem
        (fun t => if t.tag.isNone then tagStep matcher rules2 t else t) ht1
      simpa [hN1] using this
    · intro t2 ht2 hid
      rw [applyTagRules_eq matcher rules2 txns1 h1] at ht2
      obtain ⟨s, hs, heq⟩ := List.mem_map.1 ht2
      have hsid : s.transaction_id = t2.transaction_id := by
        rw [← heq]
        by_cases hsN : s.tag.isNone = true
        · have hsnone : s.tag = none := Option.isNone_iff_eq_none.1 hsN
          cases hm2 : firstMatchTag matcher (getTagRulesSorted rules2) (haystack s) <;>
            simp [hsN, hsnone, tagStep, tagStepSorted, hm2]
        · simp [hsN]
      have hst1 : s = t1 :=
        List.inj_on_of_nodup_map h1 hs ht1 (hsid.trans hid)
      rw [← heq, hst1]
      simp [hN1]

/-- Claim C3, witness for the amended statement: one pass tags the example
row with coffee; re-running with the same single rule is a no-op, and
after adding a strictly higher-priority generic-food rule the tagged row
is still present, unchanged. -/
theorem applyTagRules_tag_once_witness :
    applyTagRules litMatch [exRuleCoffee]
        (applyTagRules litMatch [exRuleCoffee] [exUntagged]).2 =
      (0, (applyTagRules litMatch [exRuleCoffee] [exUntagged]).2) ∧
    ({ toTxnInput := exTxnInput1, tag := some "coffee" } : TxnRow) ∈
      (applyTagRules litMatch [exRuleFood, exRuleCoffee]
        (applyTagRules litMatch [exRuleCoffee] [exUntagged]).2).2 := by
  have h := applyTagRules_tag_once litMatch [exRuleCoffee] [exRuleFood, exRuleCoffee]
    [exUntagged] (applyTagRules litMatch [exRuleCoffee] [exUntagged]).2
    (applyTagRules litMatch [exRuleCoffee] [exUntagged]).1
    (by decide) rfl
  refine ⟨h.1, ?_⟩
  have hmem : ({ toTxnInput := exTxnInput1, tag := some "coffee" } : TxnRow) ∈
      (applyTagRules litMatch [exRuleCoffee] [exUntagged]).2 := by
    have hev : (applyTagRules litMatch [exRuleCoffee] [exUntagged]).2 =
        [{ toTxnInput := exTxnInput1, tag := some "coffee" }] := by rfl
    rw [hev]
    exact List.mem_singleton.2 rfl
  exact (h.2 { toTxnInput := exTxnInput1, tag := some "coffee" } hmem "coffee" rfl).1

/-- Looking a key up in an association list built by mapping over a key
list is looking the key up in the key list. -/
theorem lookup_keysMap (f : String → Rat) (keys : List String) (tag : String) :
    (keys.map (fun k => (k, f k))).find? (fun p => p.1 == tag) =
      (keys.find? (fun k => k == tag)).map (fun k => (k, f k)) := by
  induction keys with
  | nil => rfl
  | cons k ks ih =>
    by_cases h : (k == tag) = true
    · simp [List.find?_cons_of_pos, h]
    · have h' : (k == tag) = false := Bool.eq_false_iff.2 h
      simp [List.find?_cons_of_neg, h', ih]

/-- The grouped monthly aggregation, looked up at one tag with the
missing-key-means-zero rule, equals the plain filtered spend-only sum for
that tag — the spec's wording of `spent`. -/
theorem lookupSpent_eq (txns : List TxnRow) (month tag : String) :
    lookupSpent (getSpendingByTagForMonth txns month) tag =
      specSpent txns month tag := by
  have hspec : txns.filter (fun t => decide (0 < t.amount) &&
        (monthOf t.date == month) && (resolvedTag t == tag)) =
      (txns.filter (fun t => decide (0 < t.amount) && (monthOf t.date == month))).filter
        (fun t => resolvedTag t == tag) := by
    rw [List.filter_filter]
    apply List.filter_congr
    intro a _
    rw [Bool.and_comm]
  simp only [lookupSpent, getSpendingByTagForMonth, specSpent]
  rw [lookup_keysMap]
  cases hfind : ((txns.filter (fun t => decide (0 < t.amount) &&
      (monthOf t.date == month))).map resolvedTag).dedup.find? (fun k => k == tag) with
  | none =>
    have hnotin : ∀ t ∈ txns.filter (fun t => decide (0 < t.amount) &&
        (monthOf t.date == month)), ¬ (resolvedTag t == tag) = true := by
      intro t ht hbeq
      have htag : resolvedTag t = tag := beq_iff_eq.1 hbeq
      have hmem : tag ∈ ((txns.filter (fun t => decide (0 < t.amount) &&
          (monthOf t.date == month))).map resolvedTag).dedup := by
        rw [List.mem_dedup]
        exact htag ▸ List.mem_map_of_mem resolvedTag ht
      have := List.find?_eq_none.1 hfind tag hmem
      simp at this
    have hempty : (txns.filter (fun t => decide (0 < t.amount) &&
        (monthOf t.date == month))).filter (fun t => resolvedTag t == tag) = [] :=
      List.filter_eq_nil_iff.2 hnotin
    simp [hspec, hempty]
  | some k =>
    have hk0 := List.find?_some hfind
    have hkeq : k = tag := by simpa using hk0
    subst hkeq
    simp [hspec]

/-- Characterisation of `getBudgetStatuses`: for each configured budget,
spent is the spend-only resolved-tag total of the month (rounded to
cents), remaining is the clamped difference (rounded to cents),
percent_used is spent over limit when the limit is positive and zero
otherwise (rounded to three decimals), and over_budget is spent > limit. -/
theorem getBudgetStatuses_eq (budgets : List Budget) (txns : List TxnRow)
    (month : String) :
    getBudgetStatuses budgets txns month =
      budgets.map (fun b =>
        { tag := b.tag, monthly_limit := b.monthly_limit,
          alert_threshold := b.alert_threshold,
          spent := roundCents (specSpent txns month b.tag),
          remaining := roundCents (max 0 (b.monthly_limit - specSpent txns month b.tag)),
          percent_used := roundTo3 (if 0 < b.monthly_limit
            then specSpent txns month b.tag / b.monthly_limit else 0),
          over_budget := decide (b.monthly_limit < specSpent txns month b.tag) }) := by
  simp only [getBudgetStatuses]
  split
  · rename_i hemp
    have hnil : budgets = [] := by simpa [List.isEmpty_iff] using hemp
    rw [hnil]
    rfl
  · apply List.map_congr_left
    intro b _
    simp only [lookupSpent_eq]

/-- Claim C5, counterexample: the claim asserts percent_used equals
spent divided by the limit whenever the limit is nonzero (zero only when
the limit is 0). A budget configured with limit -100 and 50 spent reports
percent_used 0, while the claim prescribes -0.5: the code tests
`monthly_limit > 0`, not `= 0`. -/
theorem getBudgetStatuses_percent_claim_false :
    (getBudgetStatuses [exBudgetNeg] [exSpendTxn] "2024-06").map
        (fun s => s.percent_used) = [0] ∧
    exBudgetNeg.monthly_limit ≠ 0 ∧
    roundTo3 (specSpent [exSpendTxn] "2024-06" exBudgetNeg.tag /
      exBudgetNeg.monthly_limit) = -(1 / 2) ∧
    (0 : Rat) ≠ -(1 / 2) := by
  have hfil : [exSpendTxn].filter (fun t => decide (0 < t.amount) &&
      (monthOf t.date == "2024-06") && (resolvedTag t == "travel")) = [exSpendTxn] := by
    decide
  have hs : specSpent [exSpendTxn] "2024-06" "travel" = 50 := by
    unfold specSpent
    rw [hfil]
    simp [exSpendTxn, exTxnInput1]
  refine ⟨?_, by norm_num [exBudgetNeg], ?_, by norm_num⟩
  · rw [getBudgetStatuses_eq]
    have hneg : ¬ ((0 : Rat) < exBudgetNeg.monthly_limit) := by
      norm_num [exBudgetNeg]
    simp only [List.map_cons, List.map_nil, if_neg hneg]
    norm_num [roundTo3, jsRound]
    rw [show ((1 : ℚ) / 2).floor = ⌊(1 : ℚ) / 2⌋ from rfl]
    norm_num
  · show roundTo3 (specSpent [exSpendTxn] "2024-06" "travel" / (-100 : Rat)) = -(1 / 2)
    rw [hs]
    have hfloor : Rat.floor ((50 : Rat) / (-100) * 1000 + 1 / 2) = -500 := by
      show Rat.floor ((50 : ℚ) / (-100) * 1000 + 1 / 2) = -500
      rw [show Rat.floor ((50 : ℚ) / (-100) * 1000 + 1 / 2) =
          ⌊(50 : ℚ) / (-100) * 1000 + 1 / 2⌋ from rfl]
      norm_num
    unfold roundTo3 jsRound
    rw [hfloor]
    norm_num

/-- Claim C5, amended: for every configured budget and month,
`getBudgetStatuses` reports spent as the spend-only resolved-tag total
rounded to cents, remaining as max(0, limit - spent) rounded to cents,
percent_used as spent/limit when the limit is positive and 0 otherwise
(rounded to three decimals), and over_budget as spent > limit. -/
theorem getBudgetStatuses_spec (budgets : List Budget) (txns : List TxnRow)
    (month : String) :
    getBudgetStatuses budgets txns month =
      budgets.map (fun b =>
        { tag := b.tag, monthly_limit := b.monthly_limit,
          alert_threshold := b.alert_threshold,
          spent := roundCents (specSpent txns month b.tag),
          remaining := roundCents (max 0 (b.monthly_limit - specSpent txns month b.tag)),
          percent_used := roundTo3 (if 0 < b.monthly_limit
            then specSpent txns month b.tag / b.monthly_limit else 0),
          over_budget := decide (b.monthly_limit < specSpent txns month b.tag) }) :=
  getBudgetStatuses_eq budgets txns month

/-- The batch is not applied while paginating: the pagination loop never
touches the transaction table or the sync-state table (only accounts), a
failed pass reports a failed collection, and a finished pass returns
exactly the accumulators extended with the collected batch. -/
theorem syncLoop_spec (feed : String → Option Page) (now itemId : String) :
    ∀ (fuel : Nat) (cursor : String) (a m : List PlaidTxn) (r : List String) (db : Db),
      (∀ dbE, syncLoop feed now itemId fuel cursor a m r db = .error dbE →
        dbE.transactions = db.transactions ∧ dbE.sync_state = db.sync_state ∧
        collectFeed feed fuel cursor = none) ∧
      (∀ db' c A M R,
        syncLoop feed now itemId fuel cursor a m r db = .ok (db', c, A, M, R) →
        db'.transactions = db.transactions ∧ db'.sync_state = db.sync_state ∧
        ∃ A0 M0 R0, collectFeed feed fuel cursor = some (A0, M0, R0, c) ∧
          A = a ++ A0 ∧ M = m ++ M0 ∧ R = r ++ R0) := by
  intro fuel
  induction fuel with
  | zero =>
    intro cursor a m r db
    constructor
    · intro dbE h
      simp only [syncLoop, Except.error.injEq] at h
      subst h
      exact ⟨rfl, rfl, rfl⟩
    · intro db' c A M R h
      simp only [syncLoop] at h
      exact absurd h (by simp)
  | succ fuel ih =>
    intro cursor a m r db
    cases hf : feed cursor with
    | none =>
      constructor
      · intro dbE h
        simp only [syncLoop, hf, Except.error.injEq] at h
        subst h
        exact ⟨rfl, rfl, by simp only [collectFeed, hf]⟩
      · intro db' c A M R h
        simp only [syncLoop, hf] at h
        exact absurd h (by simp)
    | some page =>
      cases hm : page.has_more with
      | true =>
        constructor
        · intro dbE h
          simp only [syncLoop, hf, hm, if_true] at h
          obtain ⟨h1, h2, h3⟩ := (ih page.next_cursor (a ++ page.added)
            (m ++ page.modified)
            (r ++ page.removed.filterMap PlaidRemoved.transaction_id) _).1 dbE h
          refine ⟨?_, ?_, ?_⟩
          · rw [h1]
            split <;> rfl
          · rw [h2]
            split <;> rfl
          · simp [collectFeed, hf, hm, h3]
        · intro db' c A M R h
          simp only [syncLoop, hf, hm, if_true] at h
          obtain ⟨h1, h2, A0, M0, R0, hc, hA, hM, hR⟩ := (ih page.next_cursor
            (a ++ page.added) (m ++ page.modified)
            (r ++ page.removed.filterMap PlaidRemoved.transaction_id) _).2 db' c A M R h
          refine ⟨?_, ?_, page.added ++ A0, page.modified ++ M0,
            page.removed.filterMap PlaidRemoved.transaction_id ++ R0, ?_, ?_, ?_, ?_⟩
          · rw [h1]
            split <;> rfl
          · rw [h2]
            split <;> rfl
          · simp [collectFeed, hf, hm, hc]
          · rw [hA, List.append_assoc]
          · rw [hM, List.append_assoc]
          · rw [hR, List.append_assoc]
      | false =>
        constructor
        · intro dbE h
          simp only [syncLoop, hf, hm] at h
          exact absurd h (by simp)
        · intro db' c A M R h
          simp only [syncLoop, hf, hm, if_false] at h
          cases h
          refine ⟨?_, ?_, page.added, page.modified,
            page.removed.filterMap PlaidRemoved.transaction_id, ?_, rfl, rfl, rfl⟩
          · split <;> rfl
          · split <;> rfl
          · simp [collectFeed, hf, hm]

/-- Batches of zero transactions are no-ops. -/
theorem upsertTransactions_nil (tb : List TxnRow) : upsertTransactions tb [] = tb := rfl

/-- Deleting zero ids is a no-op. -/
theorem removeTransactions_nil (tb : List TxnRow) : removeTransactions tb [] = tb := rfl

/-- A failed pass leaves both the transaction table and the sync-state
table exactly as they were. -/
theorem syncItem_error_state (feed : String → Option Page) (now : String) (db : Db)
    (itemId : String) (fuel : Nat) :
    ∀ dbE, syncItem feed now db itemId fuel = .error dbE →
      dbE.transactions = db.transactions ∧ dbE.sync_state = db.sync_state := by
  intro dbE h
  unfold syncItem at h
  cases hs : syncLoop feed now itemId fuel (startCursor db itemId) [] [] [] db with
  | error dbE' =>
    rw [hs] at h
    simp only [Except.error.injEq] at h
    subst h
    obtain ⟨h1, h2, _⟩ :=
      (syncLoop_spec feed now itemId fuel (startCursor db itemId) [] [] [] db).1 dbE' hs
    exact ⟨h1, h2⟩
  | ok tup =>
    rw [hs] at h
    simp at h

/-- A finished pass commits exactly the accumulated batch (added upserts,
then modified upserts, then removals) together with the final cursor. -/
theorem syncItem_ok_state (feed : String → Option Page) (now : String) (db : Db)
    (itemId : String) (fuel : Nat) :
    ∀ db' resp, syncItem feed now db itemId fuel = .ok (db', resp) →
      ∃ A M R,
        collectFeed feed fuel (startCursor db itemId) = some (A, M, R, resp.cursor) ∧
        db'.transactions =
          removeTransactions
            (upsertTransactions
              (upsertTransactions db.transactions (A.map mapPlaidTransaction))
              (M.map mapPlaidTransaction)) R ∧
        db'.sync_state = setCursor db.sync_state itemId resp.cursor ∧
        resp.added = A.length ∧ resp.modified = M.length ∧ resp.removed = R.length ∧
        resp.has_more = false := by
  intro db' resp h
  unfold syncItem at h
  cases hs : syncLoop feed now itemId fuel (startCursor db itemId) [] [] [] db with
  | error dbE =>
    rw [hs] at h
    simp at h
  | ok tup =>
    obtain ⟨db9, c, A, M, R⟩ := tup
    rw [hs] at h
    simp only [Except.ok.injEq, Prod.mk.injEq] at h
    obtain ⟨hdb, hresp⟩ := h
    obtain ⟨htr, hsy, A0, M0, R0, hcol, hA0, hM0, hR0⟩ :=
      (syncLoop_spec feed now itemId fuel (startCursor db itemId) [] [] [] db).2
        db9 c A M R hs
    rw [List.nil_append] at hA0 hM0 hR0
    subst hA0
    subst hM0
    subst hR0
    have e1 : ∀ tb : List TxnRow, (if A.length > 0 then
        upsertTransactions tb (A.map mapPlaidTransaction) else tb) =
        upsertTransactions tb (A.map mapPlaidTransaction) := by
      intro tb
      cases A <;> simp [upsertTransactions]
    have e2 : ∀ tb : List TxnRow, (if M.length > 0 then
        upsertTransactions tb (M.map mapPlaidTransaction) else tb) =
        upsertTransactions tb (M.map mapPlaidTransaction) := by
      intro tb
      cases M <;> simp [upsertTransactions]
    have e3 : ∀ tb : List TxnRow,
        (if R.length > 0 then removeTransactions tb R else tb) =
        removeTransactions tb R := by
      intro tb
      cases R <;> simp [removeTransactions]
    have hcur : resp.cursor = c := by rw [← hresp]
    refine ⟨A, M, R, ?_, ?_, ?_, ?_, ?_, ?_, ?_⟩
    · rw [hcur]
      exact hcol
    · rw [← hdb]
      simp only [e1, e2, e3, htr]
    · rw [← hdb, hcur]
      simp only [hsy]
    · rw [← hresp]
    · rw [← hresp]
    · rw [← hresp]
    · rw [← hresp]

/-- The starting cursor only depends on the sync-state table. -/
theorem startCursor_congr {db1 db2 : Db} (h : db1.sync_state = db2.sync_state)
    (itemId : String) : startCursor db1 itemId = startCursor db2 itemId := by
  unfold startCursor getSyncState
  rw [h]

/-- Lookup after rewriting the matching association-list rows. -/
theorem find?_map_setKey (i c : String) :
    ∀ st : List (String × String), st.any (fun p => p.1 == i) = true →
      (st.map (fun p => if p.1 == i then (i, c) else p)).find?
        (fun p => p.1 == i) = some (i, c)
  | [], h => by simp at h
  | p :: ps, h => by
    by_cases hp : (p.1 == i) = true
    · rw [List.map_cons, if_pos hp, List.find?_cons_of_pos _ (by simp)]
    · have hps : ps.any (fun q => q.1 == i) = true := by
        simpa [hp] using h
      have hp' : (p.1 == i) = false := Bool.eq_false_iff.2 hp
      rw [List.map_cons, if_neg hp]
      simp only [List.find?, hp']
      exact find?_map_setKey i c ps hps

/-- Lookup skips a prefix with no matching row. -/
theorem find?_append_of_none {α : Type} (p : α → Bool) :
    ∀ (l1 l2 : List α), l1.find? p = none → (l1 ++ l2).find? p = l2.find? p
  | [], _, _ => rfl
  | a :: l1, l2, h => by
    by_cases hpa : p a = true
    · rw [List.find?_cons_of_pos _ hpa] at h
      exact absurd h (by simp)
    · have hpa' : p a = false := Bool.eq_false_iff.2 hpa
      rw [List.find?_cons_of_neg _ hpa] at h
      rw [List.cons_append, List.find?_cons_of_neg _ hpa]
      exact find?_append_of_none p l1 l2 h

/-- After `setSyncState`, looking the item up yields the new cursor. -/
theorem find?_setCursor (st : List (String × String)) (i c : String) :
    (setCursor st i c).find? (fun p => p.1 == i) = some (i, c) := by
  unfold setCursor sqlUpsertRow
  split
  · rename_i hany
    exact find?_map_setKey i c st hany
  · rename_i hany
    have hnone : st.find? (fun p => p.1 == i) = none := by
      rw [List.find?_eq_none]
      intro p hp hbeq
      exact hany (List.any_eq_true.2 ⟨p, hp, hbeq⟩)
    rw [find?_append_of_none _ st [(i, c)] hnone]
    simp

/-- Claim C1: a pass of `syncItem` persists the cursor only together with
the full accumulated batch — all accumulated added and modified upserts
and all accumulated removals — in one atomic unit (the success case
commits exactly the collected batch plus the final cursor, and the next
invocation starts from that cursor); if any page request fails, the pass
errors and neither the cursor nor any transaction upsert or removal is
applied, so the next invocation resumes from the last persisted cursor. -/
theorem syncItem_atomic (feed : String → Option Page) (now : String) (db : Db)
    (itemId : String) (fuel : Nat) :
    (∀ dbE, syncItem feed now db itemId fuel = .error dbE →
      dbE.transactions = db.transactions ∧ dbE.sync_state = db.sync_state ∧
      startCursor dbE itemId = startCursor db itemId) ∧
    (∀ db' resp, syncItem feed now db itemId fuel = .ok (db', resp) →
      ∃ A M R,
        collectFeed feed fuel (startCursor db itemId) = some (A, M, R, resp.cursor) ∧
        db'.transactions =
          removeTransactions
            (upsertTransactions
              (upsertTransactions db.transactions (A.map mapPlaidTransaction))
              (M.map mapPlaidTransaction)) R ∧
        db'.sync_state = setCursor db.sync_state itemId resp.cursor ∧
        startCursor db' itemId = resp.cursor ∧
        resp.added = A.length ∧ resp.modified = M.length ∧ resp.removed = R.length) := by
  constructor
  · intro dbE h
    obtain ⟨h1, h2⟩ := syncItem_error_state feed now db itemId fuel dbE h
    exact ⟨h1, h2, startCursor_congr h2 itemId⟩
  · intro db' resp h
    obtain ⟨A, M, R, hc, ht, hsy, hA, hM, hR, _⟩ :=
      syncItem_ok_state feed now db itemId fuel db' resp h
    refine ⟨A, M, R, hc, ht, hsy, ?_, hA, hM, hR⟩
    unfold startCursor getSyncState
    rw [hsy, find?_setCursor]
    rfl

/-- Claim C1, witness: on an empty database, a one-page feed commits the
mapped added transaction together with the cursor, and the committed
cursor is where the next pass starts. -/
theorem syncItem_atomic_witness :
    ∃ A M R, collectFeed exFeedOk 3 (startCursor exDb "item1") = some (A, M, R, "c1") ∧
      exDbSynced.transactions =
        removeTransactions
          (upsertTransactions
            (upsertTransactions exDb.transactions (A.map mapPlaidTransaction))
            (M.map mapPlaidTransaction)) R ∧
      exDbSynced.sync_state = setCursor exDb.sync_state "item1" "c1" ∧
      startCursor exDbSynced "item1" = "c1" := by
  have h := (syncItem_atomic exFeedOk "now" exDb "item1" 3).2 exDbSynced exRespSynced rfl
  obtain ⟨A, M, R, h1, h2, h3, h4, _⟩ := h
  exact ⟨A, M, R, h1, h2, h3, h4⟩

/-- A successfully committed prefix of items factors out of the item loop
of `syncAll`, whatever the counter accumulators are. -/
theorem syncAllGo_append (now : String) (fuel : Nat) :
    ∀ (pre l : List ItemSpec) (db dbPre : Db) (ta tm tr : Nat) (lc : String),
      runItems now fuel pre db = .ok dbPre →
      ∃ ta' tm' tr' lc', syncAllGo now fuel (pre ++ l) db ta tm tr lc =
        syncAllGo now fuel l dbPre ta' tm' tr' lc'
  | [], l, db, dbPre, ta, tm, tr, lc, h => by
    simp only [runItems, Except.ok.injEq] at h
    subst h
    exact ⟨ta, tm, tr, lc, rfl⟩
  | it :: pre, l, db, dbPre, ta, tm, tr, lc, h => by
    simp only [runItems] at h
    cases hs : syncItem it.feed now db it.itemId fuel with
    | error dbE =>
      rw [hs] at h
      exact absurd h (by simp)
    | ok pair =>
      obtain ⟨db1, r⟩ := pair
      rw [hs] at h
      have hrest : runItems now fuel pre db1 = .ok dbPre := h
      have := syncAllGo_append now fuel pre l db1 dbPre (ta + r.added)
        (tm + r.modified) (tr + r.removed) r.cursor hrest
      simpa [syncAllGo, hs] using this

/-- Claim C2, counterexample: the claim asserts that after one item's
reconciliation fails, the remaining items' reconciliations still continue.
With a failing first item and a second item whose feed succeeds, `syncAll`
stops at the first item and returns the untouched database — no state for
the second item is written — even though the second item's pass commits
fine when run by itself. -/
theorem syncAll_continue_claim_false :
    syncAll "now" exDb [ItemSpec.mk "i1" exFeedFail, ItemSpec.mk "i2" exFeedOk] 3 =
      .error exDb ∧
    getSyncState exDb "i2" = none ∧
    syncItem exFeedOk "now" exDb "i2" 3 =
      .ok ({ accounts := [],
             transactions := [{ toTxnInput := mapPlaidTransaction exPlaidTxn, tag := none }],
             sync_state := [("i2", "c1")] }, exRespSynced) := by
  exact ⟨rfl, rfl, rfl⟩

/-- Claim C2, amended: when one item's pass fails after a prefix of items
has committed, that item's pass commits nothing (its transaction and
sync-state tables are those the prefix left), the previously completed
items keep their committed results, and the remaining items are not
processed — `syncAll` propagates the error and stops at the failing item,
whatever items follow it. -/
theorem syncAll_failure_scope (now : String) (fuel : Nat) (db dbPre dbErr : Db)
    (pre : List ItemSpec) (it : ItemSpec)
    (hpre : runItems now fuel pre db = .ok dbPre)
    (hfail : syncItem it.feed now dbPre it.itemId fuel = .error dbErr) :
    (∀ rest : List ItemSpec, syncAll now db (pre ++ it :: rest) fuel = .error dbErr) ∧
    dbErr.transactions = dbPre.transactions ∧ dbErr.sync_state = dbPre.sync_state := by
  constructor
  · intro rest
    unfold syncAll
    rw [if_neg (by simp)]
    obtain ⟨ta', tm', tr', lc', heq⟩ :=
      syncAllGo_append now fuel pre (it :: rest) db dbPre 0 0 0 "" hpre
    rw [heq]
    simp [syncAllGo, hfail]
  · exact syncItem_error_state it.feed now dbPre it.itemId fuel dbErr hfail

/-- Claim C2, witness: with no committed prefix, a failing first item makes
the whole multi-item sync stop with the database unchanged, regardless of
the items that follow. -/
theorem syncAll_failure_scope_witness :
    syncAll "now" exDb [ItemSpec.mk "i1" exFeedFail, ItemSpec.mk "i2" exFeedOk] 3 =
      .error exDb ∧
    exDb.transactions = exDb.transactions ∧ exDb.sync_state = exDb.sync_state := by
  have h := syncAll_failure_scope "now" 3 exDb exDb exDb []
    (ItemSpec.mk "i1" exFeedFail) rfl rfl
  exact ⟨h.1 [ItemSpec.mk "i2" exFeedOk], h.2⟩

end Cashflow
